import Mathlib

/-!
Shallow embedding of the bluesky-scraper pipeline (src/pull.py and
src/categorize.py) for checking the natural-language specification.

Strings are modelled as `List Char` (Python `str` is a sequence of Unicode
code points, which matches Lean `Char`).  JSON values as produced by Python
`json.loads` are modelled by the inductive `Json`; machine-level details that
no claim touches (float JSON numbers, PEP-515 underscores in `int()`) are
noted at the definitions that abstract them.
-/



/-- JSON values as returned by Python `json.loads`.  Numbers are modelled as
integers (the classifier protocol and the dedup file only carry integral
numbers; no claim depends on float literals). -/
inductive Json where
  | null : Json
  | bool (b : Bool) : Json
  | num (n : Int) : Json
  | str (s : List Char) : Json
  | arr (xs : List Json) : Json
  | obj (fields : List (List Char × Json)) : Json

mutual

/-- Decidable equality on `Json` (the nested inductive defeats `deriving`). -/
def Json.decEq : (a b : Json) → Decidable (a = b)
  | .null, .null => .isTrue rfl
  | .bool a, .bool b =>
    if h : a = b then .isTrue (h ▸ rfl)
    else .isFalse (fun e => h (Json.bool.inj e))
  | .num a, .num b =>
    if h : a = b then .isTrue (h ▸ rfl)
    else .isFalse (fun e => h (Json.num.inj e))
  | .str a, .str b =>
    if h : a = b then .isTrue (h ▸ rfl)
    else .isFalse (fun e => h (Json.str.inj e))
  | .arr xs, .arr ys =>
    match Json.decEqArr xs ys with
    | .isTrue h => .isTrue (h ▸ rfl)
    | .isFalse h => .isFalse (fun e => h (Json.arr.inj e))
  | .obj xs, .obj ys =>
    match Json.decEqObj xs ys with
    | .isTrue h => .isTrue (h ▸ rfl)
    | .isFalse h => .isFalse (fun e => h (Json.obj.inj e))
  | .null, .bool _ => .isFalse (fun h => Json.noConfusion h)
  | .null, .num _ => .isFalse (fun h => Json.noConfusion h)
  | .null, .str _ => .isFalse (fun h => Json.noConfusion h)
  | .null, .arr _ => .isFalse (fun h => Json.noConfusion h)
  | .null, .obj _ => .isFalse (fun h => Json.noConfusion h)
  | .bool _, .null => .isFalse (fun h => Json.noConfusion h)
  | .bool _, .num _ => .isFalse (fun h => Json.noConfusion h)
  | .bool _, .str _ => .isFalse (fun h => Json.noConfusion h)
  | .bool _, .arr _ => .isFalse (fun h => Json.noConfusion h)
  | .bool _, .obj _ => .isFalse (fun h => Json.noConfusion h)
  | .num _, .null => .isFalse (fun h => Json.noConfusion h)
  | .num _, .bool _ => .isFalse (fun h => Json.noConfusion h)
  | .num _, .str _ => .isFalse (fun h => Json.noConfusion h)
  | .num _, .arr _ => .isFalse (fun h => Json.noConfusion h)
  | .num _, .obj _ => .isFalse (fun h => Json.noConfusion h)
  | .str _, .null => .isFalse (fun h => Json.noConfusion h)
  | .str _, .bool _ => .isFalse (fun h => Json.noConfusion h)
  | .str _, .num _ => .isFalse (fun h => Json.noConfusion h)
  | .str _, .arr _ => .isFalse (fun h => Json.noConfusion h)
  | .str _, .obj _ => .isFalse (fun h => Json.noConfusion h)
  | .arr _, .null => .isFalse (fun h => Json.noConfusion h)
  | .arr _, .bool _ => .isFalse (fun h => Json.noConfusion h)
  | .arr _, .num _ => .isFalse (fun h => Json.noConfusion h)
  | .arr _, .str _ => .isFalse (fun h => Json.noConfusion h)
  | .arr _, .obj _ => .isFalse (fun h => Json.noConfusion h)
  | .obj _, .null => .isFalse (fun h => Json.noConfusion h)
  | .obj _, .bool _ => .isFalse (fun h => Json.noConfusion h)
  | .obj _, .num _ => .isFalse (fun h => Json.noConfusion h)
  | .obj _, .str _ => .isFalse (fun h => Json.noConfusion h)
  | .obj _, .arr _ => .isFalse (fun h => Json.noConfusion h)

/-- Decidable equality on lists of `Json`. -/
def Json.decEqArr : (xs ys : List Json) → Decidable (xs = ys)
  | [], [] => .isTrue rfl
  | [], _ :: _ => .isFalse (fun h => List.noConfusion h)
  | _ :: _, [] => .isFalse (fun h => List.noConfusion h)
  | x :: xs, y :: ys =>
    match Json.decEq x y with
    | .isFalse h => .isFalse (fun e => h (List.cons.inj e).1)
    | .isTrue h1 =>
      match Json.decEqArr xs ys with
      | .isTrue h2 => .isTrue (h1 ▸ h2 ▸ rfl)
      | .isFalse h2 => .isFalse (fun e => h2 (List.cons.inj e).2)

/-- Decidable equality on `Json` object field lists. -/
def Json.decEqObj : (xs ys : List (List Char × Json)) → Decidable (xs = ys)
  | [], [] => .isTrue rfl
  | [], _ :: _ => .isFalse (fun h => List.noConfusion h)
  | _ :: _, [] => .isFalse (fun h => List.noConfusion h)
  | (k1, v1) :: xs, (k2, v2) :: ys =>
    if hk : k1 = k2 then
      match Json.decEq v1 v2 with
      | .isFalse h => .isFalse (fun e => h (congrArg Prod.snd (List.cons.inj e).1))
      | .isTrue hv =>
        match Json.decEqObj xs ys with
        | .isTrue h2 => .isTrue (hk ▸ hv ▸ h2 ▸ rfl)
        | .isFalse h2 => .isFalse (fun e => h2 (List.cons.inj e).2)
    else .isFalse (fun e => hk (congrArg Prod.fst (List.cons.inj e).1))

end

instance : DecidableEq Json := Json.decEq

/-- Characters that Python `str.strip()` removes: the Unicode whitespace set
used by `str.isspace()`. -/
def isPySpace (c : Char) : Bool :=
  ([0x09, 0x0A, 0x0B, 0x0C, 0x0D, 0x1C, 0x1D, 0x1E, 0x1F, 0x20, 0x85, 0xA0,
    0x1680, 0x2000, 0x2001, 0x2002, 0x2003, 0x2004, 0x2005, 0x2006, 0x2007,
    0x2008, 0x2009, 0x200A, 0x2028, 0x2029, 0x202F, 0x205F, 0x3000] :
    List Nat).contains c.toNat

/-- Python `str.strip()`: drop leading and trailing whitespace. -/
def pyStrip (s : List Char) : List Char :=
  ((s.dropWhile isPySpace).reverse.dropWhile isPySpace).reverse

/-- Membership of a character in the 7-bit ASCII range `\x00`-`\x7F`
(the set kept by the regex `[^\x00-\x7F]` substitution in `clean_text`). -/
def isAscii7 (c : Char) : Bool :=
  c.toNat ≤ 0x7F

/-- Membership of a character in the astral planes `\U00010000`-`\U0010FFFF`
(the set removed by the first substitution in `clean_text`). -/
def isAstral (c : Char) : Bool :=
  0x10000 ≤ c.toNat

/-- src/pull.py `clean_text`: remove astral-plane characters, then remove all
non-ASCII characters, then strip surrounding whitespace. -/
def clean_text (text : List Char) : List Char :=
  pyStrip (((text.filter (fun c => !isAstral c)).filter isAscii7))

/-- Python `dict.get` on the dict built by `json.loads` from an object
literal: the later of two duplicate keys wins, hence lookup from the
reversed field list. -/
def jsonGet (fields : List (List Char × Json)) (k : List Char) : Option Json :=
  (fields.reverse.find? (fun kv => kv.1 = k)).map (fun kv => kv.2)

/-- Value of a nonempty digit string, `none` when some character is not a
decimal digit. -/
def digitsVal (s : List Char) : Option Nat :=
  if s.isEmpty then none
  else if s.all (fun c => c.isDigit) then
    some (s.foldl (fun acc c => acc * 10 + (c.toNat - 48)) 0)
  else none

/-- Python `int(str)`: strip whitespace, optional sign, decimal digits.
(PEP-515 underscore separators and non-ASCII digits are not modelled; no
claim depends on them.) -/
def pyIntOfStr (s : List Char) : Option Int :=
  match pyStrip s with
  | [] => none
  | c :: cs =>
    if c = '+' then (digitsVal cs).map (fun n => (n : Int))
    else if c = '-' then (digitsVal cs).map (fun n => -(n : Int))
    else (digitsVal (c :: cs)).map (fun n => (n : Int))

/-- Python `int(x)` on a JSON-decoded value: ints pass through, bools coerce
to 0/1, numeric strings parse, everything else raises (`none`). -/
def pyInt : Json → Option Int
  | Json.num n => some n
  | Json.bool b => some (if b then 1 else 0)
  | Json.str s => pyIntOfStr s
  | _ => none

/-- The fallback pair returned by `categorize_text` when any exception is
raised inside its `try` block. -/
def categorizeFallback : Json × Int :=
  (Json.str "Uncategorized".toList, 1)

/-- src/categorize.py `categorize_text`, as a function of the classifier
response.  The argument is the JSON-parse outcome of the model response
content: `none` covers both a failing API call and content that
`json.loads` rejects (either way the generic `except` returns the
fallback).  On a parsed non-object, `result.get` raises `AttributeError`,
caught by the same `except`; on an object, the category is whatever the
`category` field holds (default `"Uncategorized"`), and the controversy is
`int(...)` of the `controversy` field (default 1), where a failing `int()`
also falls back. -/
def categorize_text (parsed : Option Json) : Json × Int :=
  match parsed with
  | some (Json.obj fields) =>
    match pyInt ((jsonGet fields "controversy".toList).getD (Json.num 1)) with
    | some n => ((jsonGet fields "category".toList).getD (Json.str "Uncategorized".toList), n)
    | none => categorizeFallback
  | _ => categorizeFallback

/-- A feed item's record, as accessed by `get_posts_for_user`:
`reply = some _` models `hasattr(record, 'reply') and record.reply is not
None` (absent attribute and a `None` value both collapse to `none`);
`text = none` models a record with no `text` attribute; `embd` models
`hasattr(record, 'embed')`. -/
structure PostRecord where
  reply : Option Unit
  text : Option (List Char)
  embd : Bool

/-- A feed item: `reason = some _` models `post.reason is not None`
(a repost / re-share), `uri` is `post.post.uri`. -/
structure FeedItem where
  reason : Option Unit
  record : PostRecord
  uri : List Char

/-- One output row of `get_posts_for_user`:
`[timestamp, text, uri, handle, category, controversy]`.  The category is
the raw JSON value the classifier returned (the code does not validate it). -/
structure Row where
  timestamp : List Char
  text : List Char
  uri : List Char
  handle : List Char
  category : Json
  controversy : Int
deriving DecidableEq

/-- The per-post body of the loop in `get_posts_for_user` (src/pull.py lines
119-145): skip reposts, skip replies, skip textless or whitespace-only
posts (the second, `embed`-guarded emptiness check of line 135 is kept even
though it is unreachable), then build the row from the sanitized text and
the classifier result.  `cat` abstracts `categorize_text` composed with the
model call, `ts` the `datetime.now()` capture timestamp. -/
def processPost (cat : List Char → Json × Int) (ts handle : List Char)
    (p : FeedItem) : Option Row :=
  if p.reason.isSome then none
  else if p.record.reply.isSome then none
  else
    match p.record.text with
    | none => none
    | some t =>
      if (pyStrip t).isEmpty then none
      else if p.record.embd && (pyStrip t).isEmpty then none
      else
        let text := clean_text t
        let c := cat text
        some ⟨ts, text, p.uri, handle, c.1, c.2⟩

/-- Rows produced for one user once a feed was fetched: the surviving posts
in feed order. -/
def userRows (cat : List Char → Json × Int) (ts handle : List Char)
    (feed : List FeedItem) : List Row :=
  feed.filterMap (processPost cat ts handle)

/-- Python sets of JSON-decoded values are modelled as duplicate-free lists
(`List Json`); `pySetInsert` is `set.add`.  Element order stands in for
Python's unspecified iteration order. -/
def pySetInsert (x : Json) (s : List Json) : List Json :=
  if x ∈ s then s else x :: s

/-- The inline dedup loop of `main` (src/pull.py lines 176-180): walk the
rows in order, keep a row whose uri (`row[2]`) is not in the running set and
add that uri to the set.  Returns (`new_rows`, updated `updated_uris`).
Uris sit in a set of `Json` values because the persisted state can load
non-string members (see `load_existing_post_uris`). -/
def dedupLoop : List Row → List Json → List Row × List Json
  | [], s => ([], s)
  | r :: rs, s =>
    if Json.str r.uri ∈ s then dedupLoop rs s
    else
      let rec' := dedupLoop rs (pySetInsert (Json.str r.uri) s)
      (r :: rec'.1, rec'.2)

/-- Python exceptions that escape the dedup-store and orchestrator code. -/
inductive PyErr where
  | osError : PyErr
  | attrError : PyErr
  | typeError : PyErr
deriving DecidableEq

/-- State of the `scraped_posts.json` file: absent, present but unreadable
(`open` raises `OSError`), or present with content whose `json.load` outcome
is `parsed` (`none` models a `json.JSONDecodeError`). -/
inductive FileState where
  | absent : FileState
  | unreadable : FileState
  | content (parsed : Option Json) : FileState
deriving DecidableEq

/-- A JSON value Python can put in a set (hashable): anything but a list or
a dict. -/
def jsonHashable : Json → Bool
  | Json.arr _ => false
  | Json.obj _ => false
  | _ => true

/-- Python `set(x)` on a JSON-decoded value `x`: a list yields the set of
its elements when all are hashable and raises `TypeError` otherwise; a
string yields its set of characters (one-character strings); a dict yields
its set of keys; anything else is not iterable and raises `TypeError`. -/
def pySetOf : Json → Except PyErr (List Json)
  | Json.arr xs =>
    if xs.all jsonHashable then Except.ok xs.dedup
    else Except.error PyErr.typeError
  | Json.str s => Except.ok ((s.map (fun c => Json.str [c])).dedup)
  | Json.obj fields => Except.ok ((fields.map (fun kv => Json.str kv.1)).dedup)
  | _ => Except.error PyErr.typeError

/-- src/pull.py `load_existing_post_uris`: empty set when the file is
absent; `open` raises on an unreadable file; empty set when `json.load`
raises `JSONDecodeError`; on parsed non-dict data, `data.get` raises
`AttributeError` (not caught — the `except` clause only catches
`JSONDecodeError`); on a dict, `set(data.get("uris", []))`. -/
def load_existing_post_uris : FileState → Except PyErr (List Json)
  | FileState.absent => Except.ok ∅
  | FileState.unreadable => Except.error PyErr.osError
  | FileState.content none => Except.ok ∅
  | FileState.content (some (Json.obj fields)) =>
    pySetOf ((jsonGet fields "uris".toList).getD (Json.arr []))
  | FileState.content (some _) => Except.error PyErr.attrError

/-- src/pull.py `save_post_uris`: overwrite the file with
`json.dump` of a dict with the single key `"uris"` holding `list(uris)`. -/
def save_post_uris (uris : List Json) : FileState :=
  FileState.content (some (Json.obj [("uris".toList, Json.arr uris)]))

/-- Outcome of one attempt of a wrapped remote call: a result, an exception
whose text carries a rate-limit signal (`"429"` or `"Too Many Requests"`),
or any other exception. -/
inductive CallOutcome (α : Type) where
  | ok (v : α) : CallOutcome α
  | rateLimit : CallOutcome α
  | err : CallOutcome α

/-- src/pull.py `safe_request` (lines 48-63), over the sequence of outcomes
the wrapped call would produce on attempt 0, 1, ....  Arguments mirror the
loop state: remaining attempts (`max_retries` minus attempts used), index
of the next attempt, current backoff delay.  Returns the result (`none` is
Python `None`) together with the list of backoff sleeps performed (the
fixed `DELAY_BETWEEN_API_CALLS` pacing sleep on success is not part of this
list).  On a rate-limit failure it sleeps `delay` then doubles it, capping
at 120; on any other exception it breaks out at once.  The embedding is a
total function: no exception escapes `safe_request`. -/
def safe_request (f : Nat → CallOutcome α) : Nat → Nat → Nat → Option α × List Nat
  | 0, _, _ => (none, [])
  | n + 1, i, delay =>
    match f i with
    | CallOutcome.ok v => (some v, [])
    | CallOutcome.err => (none, [])
    | CallOutcome.rateLimit =>
      let rest := safe_request f n (i + 1) (min (delay * 2) 120)
      (rest.1, delay :: rest.2)

/-- A `safe_request` call at the defaults used throughout src/pull.py:
`max_retries=5`, first attempt index 0, `initial_delay=5`. -/
def safe_request_run (f : Nat → CallOutcome α) : Option α × List Nat :=
  safe_request f 5 0 5

/-- The external world one run of `main` interacts with, abstracting the
remote services: the per-attempt outcomes of the login call; the parsed
user list; per handle, the fetched feed (`none` collapses the two per-user
failure modes of `get_posts_for_user` — unresolved DID or failed feed
fetch — both of which yield `[]` rows); the classifier on sanitized text;
the capture timestamp; and whether the i-th sheet append raises inside
`send_to_google_sheets`. -/
structure World where
  loginOutcome : Nat → CallOutcome Unit
  users : List (List Char)
  userFeed : List Char → Option (List FeedItem)
  cat : List Char → Json × Int
  ts : List Char
  sinkFails : Nat → Bool

/-- Observable state threaded through the per-user loop of `main`:
`seen` is `updated_uris`; `file` the dedup state file; `sheet` the batches
that actually reached the spreadsheet; `sinkCalls` every batch handed to
`send_to_google_sheets`; `fileWrites` the argument of every
`save_post_uris` call; `fetched` the users for which a fetch was
attempted. -/
structure RunState where
  seen : List Json
  file : FileState
  sheet : List (List Row)
  sinkCalls : List (List Row)
  fileWrites : List (List Json)
  fetched : List (List Char)
deriving DecidableEq

/-- The rows `get_posts_for_user` hands to `main` for one handle, `[]`
when resolution or the feed fetch failed. -/
def fetchRows (w : World) (u : List Char) : List Row :=
  match w.userFeed u with
  | none => []
  | some feed => userRows w.cat w.ts u feed

/-- One iteration of the user loop of `main` (src/pull.py lines 173-190):
fetch rows, dedup them against `updated_uris`, and if any rows are new,
call `send_to_google_sheets` (which swallows its own failure — a failing
append only means the batch does not reach the sheet) and then,
unconditionally after the send, `save_post_uris(updated_uris)`. -/
def processUser (w : World) (st : RunState) (u : List Char) : RunState :=
  let d := dedupLoop (fetchRows w u) st.seen
  if d.1.isEmpty then
    ⟨d.2, st.file, st.sheet, st.sinkCalls, st.fileWrites, st.fetched ++ [u]⟩
  else
    ⟨d.2, save_post_uris d.2,
      (if w.sinkFails st.sinkCalls.length then st.sheet else st.sheet ++ [d.1]),
      st.sinkCalls ++ [d.1], st.fileWrites ++ [d.2], st.fetched ++ [u]⟩

/-- The user loop of `main`, over the remaining users. -/
def runUsers (w : World) : List (List Char) → RunState → RunState
  | [], st => st
  | u :: rest, st => runUsers w rest (processUser w st u)

/-- src/pull.py `main`: attempt the login through `safe_request` (whose
result the code discards; since `safe_request` catches every exception and
returns `None` instead of raising, the `except` clause around the login —
the "login failed, abort" branch — can never run, and the run proceeds
regardless of the login outcome); return early when the user list is
empty; otherwise load the seen-uri state (an exception from
`load_existing_post_uris` crashes the run, hence the `Except`) and iterate
the users.  The returned pair carries the discarded login result for
observation. -/
def mainRun (w : World) (file0 : FileState) :
    Option Unit × Except PyErr RunState :=
  let login := safe_request_run w.loginOutcome
  if w.users.isEmpty then
    (login.1, Except.ok ⟨[], file0, [], [], [], []⟩)
  else
    match load_existing_post_uris file0 with
    | Except.error e => (login.1, Except.error e)
    | Except.ok existing =>
      (login.1, Except.ok (runUsers w w.users ⟨existing, file0, [], [], [], []⟩))

/-- The sequence of backoff waits `safe_request` performs on `k`
consecutive rate-limit failures, starting from `delay`: sleep `delay`,
then double it capping at 120. -/
def backoffList (delay : Nat) : Nat → List Nat
  | 0 => []
  | k + 1 => delay :: backoffList (min (delay * 2) 120) k

/-- A feed item that survives every filter: a plain original post with the
text `"Hello world"`. -/
def demoPost : FeedItem :=
  ⟨none, ⟨none, some "Hello world".toList, false⟩, "at1".toList⟩

/-- The row `main` builds for `demoPost` under the demo classifier and the
timestamp `"ts"`. -/
def demoRow : Row :=
  ⟨"ts".toList, "Hello world".toList, "at1".toList, "alice".toList,
   Json.str "Technology".toList, 3⟩

/-- A world in which every login attempt raises a non-rate-limit exception
while one user with one plain text post is configured and the sink works. -/
def loginFailWorld : World :=
  ⟨fun _ => CallOutcome.err, ["alice".toList], fun _ => some [demoPost],
   fun _ => (Json.str "Technology".toList, 3), "ts".toList, fun _ => false⟩

/-- A world identical to `loginFailWorld` except that the login succeeds
and every append to the spreadsheet raises inside `send_to_google_sheets`. -/
def sinkFailWorld : World :=
  ⟨fun _ => CallOutcome.ok (), ["alice".toList], fun _ => some [demoPost],
   fun _ => (Json.str "Technology".toList, 3), "ts".toList, fun _ => true⟩

/-- Forget the spreadsheet contents of a run state, keeping everything the
orchestrator persists or decides on. -/
def RunState.eraseSheet (st : RunState) : RunState :=
  ⟨st.seen, st.file, [], st.sinkCalls, st.fileWrites, st.fetched⟩

/-- Whether a feed item survives the three filters of
`get_posts_for_user` (this alone decides row production; the classifier
and the timestamp only fill row fields). -/
def postPasses (p : FeedItem) : Bool :=
  !p.reason.isSome && !p.record.reply.isSome &&
    (match p.record.text with
     | none => false
     | some t => !(pyStrip t).isEmpty)

/-- The uris of the rows `main` would obtain for one handle. -/
def rowUris (w : World) (u : List Char) : List (List Char) :=
  (fetchRows w u).map (fun r => r.uri)

/-- The invariant `main` maintains across the user loop: the state file
loads back exactly to the in-memory seen-set, which is duplicate-free and
holds only hashable values. -/
def stateInv (st : RunState) : Prop :=
  load_existing_post_uris st.file = Except.ok st.seen ∧
  st.seen.Nodup ∧ ∀ j ∈ st.seen, jsonHashable j = true

/-- A fully healthy world: login succeeds, sink succeeds, one user with one
plain text post. -/
def demoWorld : World :=
  ⟨fun _ => CallOutcome.ok (), ["alice".toList], fun _ => some [demoPost],
   fun _ => (Json.str "Technology".toList, 3), "ts".toList, fun _ => false⟩

/-- Projection of a run outcome to its state (the error branch never fires
on the inputs it is used with). -/
def stOf (r : Except PyErr RunState) : RunState :=
  match r with
  | Except.ok st => st
  | Except.error _ => ⟨[], FileState.absent, [], [], [], []⟩

theorem pyStrip_eq_rdropWhile (s : List Char) :
    pyStrip s = List.rdropWhile isPySpace (s.dropWhile isPySpace) := rfl

theorem pyStrip_sublist (s : List Char) : (pyStrip s).Sublist s := by
  rw [pyStrip_eq_rdropWhile]
  exact (( List.rdropWhile_prefix _ _).sublist).trans (List.dropWhile_suffix _).sublist

theorem pyStrip_head_not (s : List Char) (h : pyStrip s ≠ []) :
    isPySpace ((pyStrip s).head h) = false := by
  have h2 : List.rdropWhile isPySpace (s.dropWhile isPySpace) ≠ [] := h
  have heq := ( List.rdropWhile_prefix isPySpace (s.dropWhile isPySpace)).head h2
  show isPySpace ((List.rdropWhile isPySpace (s.dropWhile isPySpace)).head h2) = false
  rw [heq]
  exact List.head_dropWhile_not isPySpace s _

theorem pyStrip_last_not (s : List Char) (h : pyStrip s ≠ []) :
    isPySpace ((pyStrip s).getLast h) = false := by
  have h3 := List.rdropWhile_last_not isPySpace (s.dropWhile isPySpace) h
  simpa using h3

theorem pyStrip_idem (s : List Char) : pyStrip (pyStrip s) = pyStrip s := by
  by_cases h : pyStrip s = []
  · rw [h]; rfl
  · have hdrop : (pyStrip s).dropWhile isPySpace = pyStrip s := by
      rw [List.dropWhile_eq_self_iff]
      intro hl
      rw [List.get_mk_zero hl]
      simp [pyStrip_head_not s h]
    show List.rdropWhile isPySpace ((pyStrip s).dropWhile isPySpace) = pyStrip s
    rw [hdrop, List.rdropWhile_eq_self_iff]
    intro hl
    simp [pyStrip_last_not s hl]

theorem clean_text_all_ascii (s : List Char) (c : Char) (h : c ∈ clean_text s) :
    isAscii7 c = true := by
  unfold clean_text at h
  exact (List.mem_filter.mp (List.Sublist.mem h (pyStrip_sublist _))).2

theorem clean_text_idem (s : List Char) :
    clean_text (clean_text s) = clean_text s := by
  have hflt : ∀ u : List Char, (∀ c ∈ u, isAscii7 c = true) →
      (u.filter (fun c => !isAstral c)).filter isAscii7 = u := by
    intro u hu
    have h1 : u.filter (fun c => !isAstral c) = u := by
      rw [List.filter_eq_self]
      intro c hc
      have := hu c hc
      simp only [isAscii7, decide_eq_true_eq] at this
      simp only [isAstral, Bool.not_eq_true']
      exact decide_eq_false (by omega)
    rw [h1, List.filter_eq_self]
    exact hu
  show pyStrip (((clean_text s).filter _).filter _) = clean_text s
  rw [hflt (clean_text s) (clean_text_all_ascii s)]
  show pyStrip (pyStrip ((s.filter _).filter _)) = clean_text s
  rw [pyStrip_idem]
  rfl

/-- C9: the Text Sanitizer (`clean_text`) is a total pure function (it is a
Lean function); for every input string the output contains only 7-bit ASCII
characters and has no leading or trailing whitespace character, and
sanitizing is idempotent — in particular on an already-clean ASCII string,
applying it twice equals applying it once. -/
theorem C9_clean_text_sanitizer (s : List Char) :
    (∀ c ∈ clean_text s, isAscii7 c = true) ∧
    (∀ h : clean_text s ≠ [], isPySpace ((clean_text s).head h) = false) ∧
    (∀ h : clean_text s ≠ [], isPySpace ((clean_text s).getLast h) = false) ∧
    clean_text (clean_text s) = clean_text s := by
  refine ⟨clean_text_all_ascii s, ?_, ?_, clean_text_idem s⟩
  · intro h
    exact pyStrip_head_not _ h
  · intro h
    exact pyStrip_last_not _ h

/-- Witness for C9 at the concrete input `"  a✨b "`. -/
theorem C9_clean_text_sanitizer_witness :
    isPySpace ((clean_text "  a✨b ".toList).head (by decide)) = false ∧
    isPySpace ((clean_text "  a✨b ".toList).getLast (by decide)) = false ∧
    clean_text (clean_text "  a✨b ".toList) = clean_text "  a✨b ".toList :=
  ⟨(C9_clean_text_sanitizer "  a✨b ".toList).2.1 (by decide),
   (C9_clean_text_sanitizer "  a✨b ".toList).2.2.1 (by decide),
   (C9_clean_text_sanitizer "  a✨b ".toList).2.2.2⟩

/-- C8: the post filters of `get_posts_for_user` — a feed item flagged as a
repost (`reason` set) is always excluded; a reply is always excluded; a
post with no text attribute or with empty/whitespace-only text is always
excluded; and a plain original post with non-empty text always yields its
row, which is included in the user's rows. -/
theorem processPost_passes_some (cat : List Char → Json × Int)
    (ts handle : List Char) (p : FeedItem) (t : List Char)
    (h1 : p.reason = none) (h2 : p.record.reply = none)
    (ht : p.record.text = some t) (hne : pyStrip t ≠ []) :
    processPost cat ts handle p =
      some ⟨ts, clean_text t, p.uri, handle,
        (cat (clean_text t)).1, (cat (clean_text t)).2⟩ := by
  simp [processPost, h1, h2, ht, List.isEmpty_iff, hne]

theorem C8_post_filters (cat : List Char → Json × Int) (ts handle : List Char)
    (p : FeedItem) (feed : List FeedItem) :
    (p.reason.isSome → processPost cat ts handle p = none) ∧
    (p.record.reply.isSome → processPost cat ts handle p = none) ∧
    (p.record.text = none → processPost cat ts handle p = none) ∧
    (∀ t, p.record.text = some t → pyStrip t = [] →
      processPost cat ts handle p = none) ∧
    (∀ t, p.reason = none → p.record.reply = none → p.record.text = some t →
      pyStrip t ≠ [] → p ∈ feed →
      processPost cat ts handle p =
        some ⟨ts, clean_text t, p.uri, handle,
          (cat (clean_text t)).1, (cat (clean_text t)).2⟩ ∧
      (⟨ts, clean_text t, p.uri, handle,
          (cat (clean_text t)).1, (cat (clean_text t)).2⟩ : Row) ∈
        userRows cat ts handle feed) := by
  refine ⟨?_, ?_, ?_, ?_, ?_⟩
  · intro h
    simp [processPost, h]
  · intro h
    by_cases h1 : p.reason.isSome
    · simp [processPost, h1]
    · simp [processPost, h1, h]
  · intro h
    by_cases h1 : p.reason.isSome
    · simp [processPost, h1]
    · by_cases h2 : p.record.reply.isSome
      · simp [processPost, h1, h2]
      · simp [processPost, h1, h2, h]
  · intro t ht hstrip
    by_cases h1 : p.reason.isSome
    · simp [processPost, h1]
    · by_cases h2 : p.record.reply.isSome
      · simp [processPost, h1, h2]
      · simp [processPost, h1, h2, ht, hstrip]
  · intro t h1 h2 ht hne hmem
    have hpp := processPost_passes_some cat ts handle p t h1 h2 ht hne
    exact ⟨hpp, List.mem_filterMap.mpr ⟨p, hmem, hpp⟩⟩

/-- Witness for C8: a plain original post with text `"hi"` is included. -/
theorem C8_post_filters_witness :
    processPost (fun _ => (Json.null, 1)) "t".toList "h".toList
        ⟨none, ⟨none, some "hi".toList, false⟩, "u".toList⟩ =
      some ⟨"t".toList, clean_text "hi".toList, "u".toList, "h".toList,
        ((fun _ => ((Json.null : Json), (1 : Int))) (clean_text "hi".toList)).1,
        ((fun _ => ((Json.null : Json), (1 : Int))) (clean_text "hi".toList)).2⟩ ∧
    (⟨"t".toList, clean_text "hi".toList, "u".toList, "h".toList,
        ((fun _ => ((Json.null : Json), (1 : Int))) (clean_text "hi".toList)).1,
        ((fun _ => ((Json.null : Json), (1 : Int))) (clean_text "hi".toList)).2⟩ : Row) ∈
      userRows (fun _ => (Json.null, 1)) "t".toList "h".toList
        [⟨none, ⟨none, some "hi".toList, false⟩, "u".toList⟩] :=
  (C8_post_filters (fun _ => (Json.null, 1)) "t".toList "h".toList
      ⟨none, ⟨none, some "hi".toList, false⟩, "u".toList⟩
      [⟨none, ⟨none, some "hi".toList, false⟩, "u".toList⟩]).2.2.2.2
    "hi".toList rfl rfl rfl (by decide) (List.mem_singleton.mpr rfl)

/-- C10 (amended): for a plain original post whose raw text consists
entirely of non-ASCII characters and whose Python-stripped form is
non-empty, the text-emptiness filter (applied to the raw text, before
sanitization) passes the post, the produced row's cleaned text is the empty
string, and the empty string is what the classifier is applied to. -/
theorem C10_nonascii_post_empty_cleantext (cat : List Char → Json × Int)
    (ts handle : List Char) (p : FeedItem) (t : List Char)
    (h1 : p.reason = none) (h2 : p.record.reply = none)
    (ht : p.record.text = some t) (hna : ∀ c ∈ t, isAscii7 c = false)
    (hne : pyStrip t ≠ []) :
    processPost cat ts handle p =
      some ⟨ts, [], p.uri, handle, (cat []).1, (cat []).2⟩ := by
  have hclean : clean_text t = [] := by
    unfold clean_text
    have hz : (t.filter (fun c => !isAstral c)).filter isAscii7 = [] := by
      rw [List.filter_eq_nil_iff]
      intro c hc
      simp [hna c (List.mem_filter.mp hc).1]
    rw [hz]
    rfl
  have hpp := processPost_passes_some cat ts handle p t h1 h2 ht hne
  rw [hpp, hclean]

/-- C10 counterexample: the raw text consisting of the single character
U+00A0 (no-break space) is non-empty and entirely non-ASCII, yet the
text-emptiness filter (Python `str.strip`, which strips Unicode whitespace)
drops the post, so no row is produced — contradicting the claim's universal
quantification over all non-empty all-non-ASCII texts. -/
theorem C10_counterexample :
    ([Char.ofNat 0xA0] ≠ ([] : List Char)) ∧
    (∀ c ∈ [Char.ofNat 0xA0], isAscii7 c = false) ∧
    processPost (fun _ => (Json.null, 1)) [] []
      ⟨none, ⟨none, some [Char.ofNat 0xA0], false⟩, []⟩ = none := by
  decide

/-- Witness for C10 (amended) at the concrete text `"😀"` (U+1F600). -/
theorem C10_nonascii_post_empty_cleantext_witness :
    processPost (fun _ => (Json.null, 1)) [] []
      ⟨none, ⟨none, some [Char.ofNat 0x1F600], false⟩, "u".toList⟩ =
      some ⟨[], [], "u".toList, [],
        ((fun _ => ((Json.null : Json), (1 : Int))) ([] : List Char)).1,
        ((fun _ => ((Json.null : Json), (1 : Int))) ([] : List Char)).2⟩ :=
  C10_nonascii_post_empty_cleantext (fun _ => (Json.null, 1)) [] []
    ⟨none, ⟨none, some [Char.ofNat 0x1F600], false⟩, "u".toList⟩
    [Char.ofNat 0x1F600] rfl rfl rfl (by decide) (by decide)

/-- C4 counterexample: a classifier response carrying the out-of-range
controversy value 15 is passed through unchanged — the code
(`int(result.get("controversy", 1))`) neither clamps nor rejects it, so the
returned controversy does not lie in [1,10]. -/
theorem C4_counterexample :
    (categorize_text (some (Json.obj
      [("category".toList, Json.str "Politics".toList),
       ("controversy".toList, Json.num 15)]))).2 = 15 ∧
    ¬ (categorize_text (some (Json.obj
      [("category".toList, Json.str "Politics".toList),
       ("controversy".toList, Json.num 15)]))).2 ≤ 10 := by
  decide

/-- C4 (amended): the controversy handling of `categorize_text` — a missing
`controversy` field defaults to 1, a failing call or unparseable response
falls back to 1, a value on which `int()` raises falls back to 1, but an
integer value is passed through unchanged, with no clamping into [1,10]. -/
theorem C4_controversy_policy (fields : List (List Char × Json)) :
    (categorize_text none = categorizeFallback) ∧
    (jsonGet fields "controversy".toList = none →
      (categorize_text (some (Json.obj fields))).2 = 1) ∧
    (∀ v, jsonGet fields "controversy".toList = some v → pyInt v = none →
      categorize_text (some (Json.obj fields)) = categorizeFallback) ∧
    (∀ n : Int, jsonGet fields "controversy".toList = some (Json.num n) →
      (categorize_text (some (Json.obj fields))).2 = n) := by
  refine ⟨rfl, ?_, ?_, ?_⟩
  · intro h
    show (match pyInt ((jsonGet fields "controversy".toList).getD (Json.num 1)) with
      | some n => ((jsonGet fields "category".toList).getD (Json.str "Uncategorized".toList), n)
      | none => categorizeFallback).2 = (1 : Int)
    rw [h]
    rfl
  · intro v hv hint
    show (match pyInt ((jsonGet fields "controversy".toList).getD (Json.num 1)) with
      | some n => ((jsonGet fields "category".toList).getD (Json.str "Uncategorized".toList), n)
      | none => categorizeFallback) = categorizeFallback
    rw [hv, Option.getD_some, hint]
  · intro n hn
    show (match pyInt ((jsonGet fields "controversy".toList).getD (Json.num 1)) with
      | some m => ((jsonGet fields "category".toList).getD (Json.str "Uncategorized".toList), m)
      | none => categorizeFallback).2 = n
    rw [hn]
    rfl

/-- Witness for C4 (amended) at a response with controversy 9. -/
theorem C4_controversy_policy_witness :
    (categorize_text (some (Json.obj
      [("controversy".toList, Json.num 9)]))).2 = 9 :=
  (C4_controversy_policy [("controversy".toList, Json.num 9)]).2.2.2 9 rfl

theorem backoff_min_arith (d j : Nat) :
    min (min (d * 2) 120 * 2 ^ j) 120 = min (d * 2 ^ (j + 1)) 120 := by
  rcases le_total (d * 2) 120 with h | h
  · rw [min_eq_left h, pow_succ]
    ring_nf
  · rw [min_eq_right h]
    have h1 : (1 : Nat) ≤ 2 ^ j := Nat.one_le_two_pow
    have h2 : (120 : Nat) ≤ 120 * 2 ^ j := Nat.le_mul_of_pos_right 120 (by omega)
    have h3 : (120 : Nat) ≤ d * 2 ^ (j + 1) := by
      calc (120 : Nat) ≤ 120 * 2 ^ j := h2
        _ ≤ d * 2 * 2 ^ j := Nat.mul_le_mul_right _ h
        _ = d * 2 ^ (j + 1) := by rw [pow_succ]; ring
    rw [min_eq_right h2, min_eq_right h3]

theorem backoffList_eq_map {d : Nat} (hd : d ≤ 120) :
    ∀ k, backoffList d k = (List.range k).map (fun j => min (d * 2 ^ j) 120) := by
  intro k
  induction k generalizing d with
  | zero => rfl
  | succ k ih =>
    rw [backoffList, List.range_succ_eq_map, List.map_cons, List.map_map]
    have hd2 : min (d * 2) 120 ≤ 120 := min_le_right _ _
    rw [ih hd2]
    have hfun : (fun j => min (min (d * 2) 120 * 2 ^ j) 120) =
        ((fun j => min (d * 2 ^ j) 120) ∘ Nat.succ) := by
      funext j
      exact backoff_min_arith d j
    rw [hfun]
    congr 1
    simp [min_eq_left, hd]

theorem safe_request_first_err {α : Type} (f : Nat → CallOutcome α) (n i d : Nat)
    (h : f i = CallOutcome.err) :
    safe_request f (n + 1) i d = (none, []) := by
  simp [safe_request, h]

theorem safe_request_rl_then_ok {α : Type} (f : Nat → CallOutcome α) (v : α) :
    ∀ k n i d, (∀ j < k, f (i + j) = CallOutcome.rateLimit) →
      f (i + k) = CallOutcome.ok v → k < n →
      safe_request f n i d = (some v, backoffList d k) := by
  intro k
  induction k with
  | zero =>
    intro n i d _ hok hlt
    match n, hlt with
    | n + 1, _ =>
      simp only [Nat.add_zero] at hok
      simp [safe_request, hok, backoffList]
  | succ k ih =>
    intro n i d hrl hok hlt
    match n, hlt with
    | n + 1, hlt =>
      have h0 : f i = CallOutcome.rateLimit := by
        have := hrl 0 (Nat.succ_pos k)
        simpa using this
      have hrl2 : ∀ j < k, f (i + 1 + j) = CallOutcome.rateLimit := by
        intro j hj
        have := hrl (j + 1) (by omega)
        rwa [show i + (j + 1) = i + 1 + j by omega] at this
      have hok2 : f (i + 1 + k) = CallOutcome.ok v := by
        rwa [show i + 1 + k = i + (k + 1) by omega]
      have := ih n (i + 1) (min (d * 2) 120) hrl2 hok2 (by omega)
      simp [safe_request, h0, this, backoffList]

theorem safe_request_exhaust {α : Type} (f : Nat → CallOutcome α) :
    ∀ n i d, (∀ j < n, f (i + j) = CallOutcome.rateLimit) →
      safe_request f n i d = (none, backoffList d n) := by
  intro n
  induction n with
  | zero => intro i d _; rfl
  | succ n ih =>
    intro i d hrl
    have h0 : f i = CallOutcome.rateLimit := by
      have := hrl 0 (Nat.succ_pos n)
      simpa using this
    have hrl2 : ∀ j < n, f (i + 1 + j) = CallOutcome.rateLimit := by
      intro j hj
      have := hrl (j + 1) (by omega)
      rwa [show i + (j + 1) = i + 1 + j by omega] at this
    have := ih (i + 1) (min (d * 2) 120) hrl2
    simp [safe_request, h0, this, backoffList]

/-- C5: the Resilient Caller contract of `safe_request` at the defaults
used by src/pull.py (`max_retries=5`, `initial_delay=5`): a first-attempt
non-rate-limit error returns `None` immediately with no backoff wait;
exactly `k` rate-limit failures (`k < 5`) followed by success return the
success result after `k` backoff waits whose delays double from 5 capped at
120 seconds; five rate-limit failures exhaust the attempts and return
`None`.  No exception propagates: the embedding of `safe_request` is a
total function. -/
theorem C5_safe_request_contract {α : Type} (f : Nat → CallOutcome α)
    (v : α) (k : Nat) :
    (f 0 = CallOutcome.err → safe_request_run f = (none, [])) ∧
    ((∀ i < k, f i = CallOutcome.rateLimit) → f k = CallOutcome.ok v → k < 5 →
      safe_request_run f =
        (some v, (List.range k).map (fun j => min (5 * 2 ^ j) 120))) ∧
    ((∀ i < 5, f i = CallOutcome.rateLimit) →
      safe_request_run f =
        (none, (List.range 5).map (fun j => min (5 * 2 ^ j) 120))) := by
  refine ⟨?_, ?_, ?_⟩
  · intro h
    exact safe_request_first_err f 4 0 5 h
  · intro hrl hok hlt
    have := safe_request_rl_then_ok f v k 5 0 5 (by simpa using hrl) (by simpa using hok) hlt
    rwa [backoffList_eq_map (by omega) k] at this
  · intro hrl
    have := safe_request_exhaust f 5 0 5 (by simpa using hrl)
    rwa [backoffList_eq_map (by omega) 5] at this

/-- Witness for C5: two rate-limit failures then success returns the result
after waits of 5 and 10 seconds; a first-attempt hard error returns `None`
with no wait. -/
theorem C5_safe_request_contract_witness :
    safe_request_run
        (fun i => if i < 2 then CallOutcome.rateLimit else CallOutcome.ok (7 : Nat)) =
      (some 7, [5, 10]) ∧
    safe_request_run (fun _ => (CallOutcome.err : CallOutcome Nat)) = (none, []) := by
  constructor
  · have h := (C5_safe_request_contract
        (fun i => if i < 2 then CallOutcome.rateLimit else CallOutcome.ok (7 : Nat))
        7 2).2.1 (fun i hi => by simp [hi]) (by simp) (by omega)
    rw [h]
    rfl
  · exact (C5_safe_request_contract (fun _ => (CallOutcome.err : CallOutcome Nat))
      0 0).1 rfl

/-- C6 counterexample: a state file whose content is valid JSON but not an
object — here the JSON array `[]` — makes `load_existing_post_uris` raise
(`data.get` on a list raises `AttributeError`, and the `except` clause only
catches `json.JSONDecodeError`); an unreadable file likewise raises from
`open`.  So loading the dedup state can fail. -/
theorem C6_counterexample :
    load_existing_post_uris (FileState.content (some (Json.arr []))) =
      Except.error PyErr.attrError ∧
    load_existing_post_uris FileState.unreadable =
      Except.error PyErr.osError := by
  exact ⟨rfl, rfl⟩

/-- C6 (amended): `load_existing_post_uris` returns the empty set when the
file is absent or its content is not parseable JSON; it returns the
persisted set when the content is an object whose `uris` value is a list of
hashable values, and the empty set when the object has no `uris` key; but
an unreadable file raises `OSError`, valid JSON that is not an object
raises `AttributeError`, and a `uris` value on which `set()` raises (e.g. a
number, or a list containing a list) raises `TypeError` — corruption is not
uniformly treated as empty. -/
theorem C6_load_dedup_state (fields : List (List Char × Json))
    (xs : List Json) (j : Json) :
    (load_existing_post_uris FileState.absent = Except.ok []) ∧
    (load_existing_post_uris (FileState.content none) = Except.ok []) ∧
    (load_existing_post_uris FileState.unreadable =
      Except.error PyErr.osError) ∧
    ((∀ fs, j ≠ Json.obj fs) →
      load_existing_post_uris (FileState.content (some j)) =
        Except.error PyErr.attrError) ∧
    (jsonGet fields "uris".toList = none →
      load_existing_post_uris (FileState.content (some (Json.obj fields))) =
        Except.ok []) ∧
    (jsonGet fields "uris".toList = some (Json.arr xs) →
      xs.all jsonHashable = true →
      load_existing_post_uris (FileState.content (some (Json.obj fields))) =
        Except.ok xs.dedup) ∧
    (jsonGet fields "uris".toList = some (Json.arr xs) →
      xs.all jsonHashable = false →
      load_existing_post_uris (FileState.content (some (Json.obj fields))) =
        Except.error PyErr.typeError) := by
  refine ⟨rfl, rfl, rfl, ?_, ?_, ?_, ?_⟩
  · intro hno
    match j, hno with
    | Json.null, _ => rfl
    | Json.bool _, _ => rfl
    | Json.num _, _ => rfl
    | Json.str _, _ => rfl
    | Json.arr _, _ => rfl
    | Json.obj fs, hno => exact absurd rfl (hno fs)
  · intro h
    show pySetOf ((jsonGet fields "uris".toList).getD (Json.arr [])) = Except.ok []
    rw [h]
    rfl
  · intro h hall
    show pySetOf ((jsonGet fields "uris".toList).getD (Json.arr [])) =
      Except.ok xs.dedup
    rw [h, Option.getD_some]
    simp [pySetOf, hall]
  · intro h hall
    show pySetOf ((jsonGet fields "uris".toList).getD (Json.arr [])) =
      Except.error PyErr.typeError
    rw [h, Option.getD_some]
    simp [pySetOf, hall]

/-- Witness for C6 (amended) at a well-formed file and a corrupt one. -/
theorem C6_load_dedup_state_witness :
    load_existing_post_uris (FileState.content (some (Json.obj
      [("uris".toList, Json.arr [Json.str "u1".toList])]))) =
      Except.ok ([Json.str "u1".toList].dedup) ∧
    load_existing_post_uris (FileState.content (some (Json.num 3))) =
      Except.error PyErr.attrError :=
  ⟨(C6_load_dedup_state [("uris".toList, Json.arr [Json.str "u1".toList])]
      [Json.str "u1".toList] Json.null).2.2.2.2.2.1 rfl rfl,
   (C6_load_dedup_state [] [] (Json.num 3)).2.2.2.1
      (fun _ h => Json.noConfusion h)⟩

theorem dedupLoop_set_toFinset (R : List Row) :
    ∀ S : List Json, ((dedupLoop R S).2).toFinset =
      S.toFinset ∪ (R.map (fun r => Json.str r.uri)).toFinset := by
  induction R with
  | nil => intro S; simp [dedupLoop]
  | cons r rs ih =>
    intro S
    by_cases hmem : Json.str r.uri ∈ S
    · rw [show dedupLoop (r :: rs) S = dedupLoop rs S by simp [dedupLoop, hmem]]
      rw [ih S]
      ext x
      simp only [Finset.mem_union, List.mem_toFinset, List.map_cons, List.mem_cons]
      constructor
      · rintro (hx | hx)
        · exact Or.inl hx
        · exact Or.inr (Or.inr hx)
      · rintro (hx | hx | hx)
        · exact Or.inl hx
        · exact Or.inl (hx ▸ hmem)
        · exact Or.inr hx
    · rw [show dedupLoop (r :: rs) S =
          ((dedupLoop rs (pySetInsert (Json.str r.uri) S)).1.cons r,
           (dedupLoop rs (pySetInsert (Json.str r.uri) S)).2) by
        simp [dedupLoop, hmem]]
      rw [show pySetInsert (Json.str r.uri) S = Json.str r.uri :: S by
        simp [pySetInsert, hmem]]
      rw [ih (Json.str r.uri :: S)]
      ext x
      simp only [Finset.mem_union, List.mem_toFinset, List.map_cons, List.mem_cons]
      tauto

theorem mem_dedupLoop_set (R : List Row) (S : List Json) (j : Json) :
    j ∈ (dedupLoop R S).2 ↔ j ∈ S ∨ j ∈ R.map (fun r => Json.str r.uri) := by
  have h := dedupLoop_set_toFinset R S
  have h2 : j ∈ ((dedupLoop R S).2).toFinset ↔
      j ∈ S.toFinset ∪ (R.map (fun r => Json.str r.uri)).toFinset := by rw [h]
  simpa using h2

theorem dedupLoop_kept_mem (R : List Row) :
    ∀ S : List Json, ∀ r ∈ (dedupLoop R S).1, r ∈ R ∧ Json.str r.uri ∉ S := by
  induction R with
  | nil => intro S r hr; simp [dedupLoop] at hr
  | cons a rs ih =>
    intro S r hr
    by_cases hmem : Json.str a.uri ∈ S
    · rw [show dedupLoop (a :: rs) S = dedupLoop rs S by simp [dedupLoop, hmem]] at hr
      have := ih S r hr
      exact ⟨List.mem_cons_of_mem a this.1, this.2⟩
    · rw [show dedupLoop (a :: rs) S =
          ((dedupLoop rs (pySetInsert (Json.str a.uri) S)).1.cons a,
           (dedupLoop rs (pySetInsert (Json.str a.uri) S)).2) by
        simp [dedupLoop, hmem]] at hr
      rcases List.mem_cons.mp hr with h | h
      · exact ⟨h ▸ List.mem_cons_self a rs, h ▸ hmem⟩
      · have := ih (pySetInsert (Json.str a.uri) S) r h
        refine ⟨List.mem_cons_of_mem a this.1, fun hc => this.2 ?_⟩
        simp [pySetInsert, hmem]
        exact Or.inr hc

theorem dedupLoop_kept_nil_iff (R : List Row) :
    ∀ S : List Json, (dedupLoop R S).1 = [] ↔ ∀ r ∈ R, Json.str r.uri ∈ S := by
  induction R with
  | nil => intro S; simp [dedupLoop]
  | cons a rs ih =>
    intro S
    by_cases hmem : Json.str a.uri ∈ S
    · rw [show dedupLoop (a :: rs) S = dedupLoop rs S by simp [dedupLoop, hmem]]
      rw [ih S]
      constructor
      · intro h r hr
        rcases List.mem_cons.mp hr with h2 | h2
        · exact h2 ▸ hmem
        · exact h r h2
      · intro h r hr
        exact h r (List.mem_cons_of_mem a hr)
    · rw [show dedupLoop (a :: rs) S =
          ((dedupLoop rs (pySetInsert (Json.str a.uri) S)).1.cons a,
           (dedupLoop rs (pySetInsert (Json.str a.uri) S)).2) by
        simp [dedupLoop, hmem]]
      constructor
      · intro h
        exact absurd h (List.cons_ne_nil a _)
      · intro h
        exact absurd (h a (List.mem_cons_self a rs)) hmem

theorem dedupLoop_set_of_kept_nil (R : List Row) :
    ∀ S : List Json, (dedupLoop R S).1 = [] → (dedupLoop R S).2 = S := by
  induction R with
  | nil => intro S _; rfl
  | cons a rs ih =>
    intro S h
    by_cases hmem : Json.str a.uri ∈ S
    · rw [show dedupLoop (a :: rs) S = dedupLoop rs S by simp [dedupLoop, hmem]] at h ⊢
      exact ih S h
    · rw [show dedupLoop (a :: rs) S =
          ((dedupLoop rs (pySetInsert (Json.str a.uri) S)).1.cons a,
           (dedupLoop rs (pySetInsert (Json.str a.uri) S)).2) by
        simp [dedupLoop, hmem]] at h
      exact absurd h (List.cons_ne_nil a _)

theorem dedupLoop_kept_of_nodup (R : List Row) :
    ∀ S : List Json, (R.map (fun r => r.uri)).Nodup →
      (dedupLoop R S).1 = R.filter (fun r => !decide (Json.str r.uri ∈ S)) := by
  induction R with
  | nil => intro S _; rfl
  | cons a rs ih =>
    intro S hnd
    rw [List.map_cons, List.nodup_cons] at hnd
    by_cases hmem : Json.str a.uri ∈ S
    · rw [show dedupLoop (a :: rs) S = dedupLoop rs S by simp [dedupLoop, hmem]]
      rw [ih S hnd.2]
      rw [List.filter_cons_of_neg (by simp [hmem])]
    · rw [show dedupLoop (a :: rs) S =
          ((dedupLoop rs (pySetInsert (Json.str a.uri) S)).1.cons a,
           (dedupLoop rs (pySetInsert (Json.str a.uri) S)).2) by
        simp [dedupLoop, hmem]]
      rw [List.filter_cons_of_pos (by simp [hmem])]
      show a :: (dedupLoop rs (pySetInsert (Json.str a.uri) S)).1 = _
      rw [ih (pySetInsert (Json.str a.uri) S) hnd.2]
      congr 1
      apply List.filter_congr
      intro x hx
      have hne : x.uri ≠ a.uri := by
        intro hc
        exact hnd.1 (hc ▸ List.mem_map_of_mem (fun r => r.uri) hx)
      rw [show pySetInsert (Json.str a.uri) S = Json.str a.uri :: S by
        simp [pySetInsert, hmem]]
      have hiff : (Json.str x.uri ∈ Json.str a.uri :: S) ↔ (Json.str x.uri ∈ S) := by
        rw [List.mem_cons]
        constructor
        · rintro (h | h)
          · exact absurd (Json.str.inj h) hne
          · exact h
        · exact Or.inr
      simp [hiff]

/-- C3 counterexample: with two rows sharing the uri `"u"` and an empty
seen-set, both rows have a uri not in the set, yet the filter keeps only
the first — refuting "every row r in R with r.uri not in S is kept". -/
theorem C3_counterexample :
    Json.str "u".toList ∉ ([] : List Json) ∧
    (dedupLoop [⟨"t1".toList, [], "u".toList, [], Json.null, 1⟩,
                ⟨"t2".toList, [], "u".toList, [], Json.null, 1⟩] []).1 ≠
      [⟨"t1".toList, [], "u".toList, [], Json.null, 1⟩,
       ⟨"t2".toList, [], "u".toList, [], Json.null, 1⟩] := by
  refine ⟨by simp, ?_⟩
  intro h
  have : (dedupLoop [⟨"t1".toList, [], "u".toList, [], Json.null, 1⟩,
      ⟨"t2".toList, [], "u".toList, [], Json.null, 1⟩] []).1 =
      [⟨"t1".toList, [], "u".toList, [], Json.null, 1⟩] := by rfl
  rw [this] at h
  exact List.noConfusion (List.cons.inj h).2

/-- C3 (amended): the dedup filter keeps only rows from R whose uri is not
in S; when the uris of R are pairwise distinct it keeps exactly the rows
whose uri is not in S (with duplicate uris in one batch, only the first
occurrence is kept); and the updated set always equals S ∪ the uris of R. -/
theorem C3_dedup_filter (R : List Row) (S : List Json) :
    (((dedupLoop R S).2).toFinset =
      S.toFinset ∪ (R.map (fun r => Json.str r.uri)).toFinset) ∧
    (∀ r ∈ (dedupLoop R S).1, r ∈ R ∧ Json.str r.uri ∉ S) ∧
    ((R.map (fun r => r.uri)).Nodup →
      (dedupLoop R S).1 = R.filter (fun r => !decide (Json.str r.uri ∈ S))) :=
  ⟨dedupLoop_set_toFinset R S, dedupLoop_kept_mem R S,
   dedupLoop_kept_of_nodup R S⟩

/-- Witness for C3 at a one-row batch against a one-element seen-set. -/
theorem C3_dedup_filter_witness :
    (dedupLoop [⟨"t".toList, [], "u1".toList, [], Json.null, 1⟩]
        [Json.str "u0".toList]).1 =
      [⟨"t".toList, [], "u1".toList, [], Json.null, 1⟩].filter
        (fun r => !decide (Json.str r.uri ∈ [Json.str "u0".toList])) :=
  (C3_dedup_filter [⟨"t".toList, [], "u1".toList, [], Json.null, 1⟩]
    [Json.str "u0".toList]).2.2 (by simp)

/-- C1: evaluation of the orchestrator at a failing login.  Because
`safe_request` catches every exception and returns `None` instead of
re-raising, the `except` clause around `client.login` in `main` never runs:
with a login call that raises a non-rate-limit error on every attempt, the
run still fetches the configured user, classifies and sends the post to the
sink, and writes the seen-set file — contradicting the specified "login
failure is fatal, no processing attempted" behavior, whose abort branch in
the code is unreachable. -/
theorem C1_login_failure_run_continues :
    safe_request_run loginFailWorld.loginOutcome = (none, []) ∧
    mainRun loginFailWorld FileState.absent =
      (none, Except.ok ⟨[Json.str "at1".toList],
        save_post_uris [Json.str "at1".toList],
        [[demoRow]], [[demoRow]], [[Json.str "at1".toList]],
        ["alice".toList]⟩) := by
  exact ⟨rfl, rfl⟩

/-- C2 counterexample: with a sink whose every append fails, the batch
never reaches the sheet (`sheet = []`), yet `save_post_uris` still runs and
the seen-set file holds the failed batch's uri — the seen-set write is NOT
restricted to the success path of the send, because
`send_to_google_sheets` swallows its own exception and `main` saves
unconditionally afterwards. -/
theorem C2_counterexample :
    mainRun sinkFailWorld FileState.absent =
      (some (), Except.ok ⟨[Json.str "at1".toList],
        save_post_uris [Json.str "at1".toList],
        [], [[demoRow]], [[Json.str "at1".toList]],
        ["alice".toList]⟩) := by
  rfl

theorem processUser_eraseSheet (w1 w2 : World) (hf : w1.userFeed = w2.userFeed)
    (hc : w1.cat = w2.cat) (ht : w1.ts = w2.ts)
    (st1 st2 : RunState) (h : st1.eraseSheet = st2.eraseSheet) (u : List Char) :
    (processUser w1 st1 u).eraseSheet = (processUser w2 st2 u).eraseSheet := by
  have hseen : st1.seen = st2.seen := by
    have h2 := congrArg RunState.seen h
    exact h2
  have hfile : st1.file = st2.file := by
    have h2 := congrArg RunState.file h
    exact h2
  have hcalls : st1.sinkCalls = st2.sinkCalls := by
    have h2 := congrArg RunState.sinkCalls h
    exact h2
  have hwrites : st1.fileWrites = st2.fileWrites := by
    have h2 := congrArg RunState.fileWrites h
    exact h2
  have hfetched : st1.fetched = st2.fetched := by
    have h2 := congrArg RunState.fetched h
    exact h2
  have hrows : fetchRows w1 u = fetchRows w2 u := by
    unfold fetchRows
    rw [hf, hc, ht]
  simp only [processUser, RunState.eraseSheet, hrows, hseen, hfile, hcalls,
    hwrites, hfetched]
  split
  · rfl
  · rfl

theorem runUsers_eraseSheet (w1 w2 : World) (hf : w1.userFeed = w2.userFeed)
    (hc : w1.cat = w2.cat) (ht : w1.ts = w2.ts) :
    ∀ (us : List (List Char)) (st1 st2 : RunState),
      st1.eraseSheet = st2.eraseSheet →
      (runUsers w1 us st1).eraseSheet = (runUsers w2 us st2).eraseSheet := by
  intro us
  induction us with
  | nil => intro st1 st2 h; exact h
  | cons u rest ih =>
    intro st1 st2 h
    exact ih _ _ (processUser_eraseSheet w1 w2 hf hc ht st1 st2 h u)

theorem runUsers_writes_calls (w : World) :
    ∀ (us : List (List Char)) (st : RunState),
      st.fileWrites.length = st.sinkCalls.length →
      (runUsers w us st).fileWrites.length =
        (runUsers w us st).sinkCalls.length := by
  intro us
  induction us with
  | nil => intro st h; exact h
  | cons u rest ih =>
    intro st h
    apply ih
    simp only [processUser]
    split
    · exact h
    · simp [h]

/-- C2 (amended): `save_post_uris` is called once per sink call regardless
of the sink's outcome — `send_to_google_sheets` swallows its own failure
and `main` persists the updated seen-set unconditionally after the send.
Formally: the run's persisted state, sink-call trace, file-write trace and
final file are identical under any two sink failure patterns (only the
spreadsheet contents differ), and every run performs exactly one seen-set
file write per sink call. -/
theorem C2_persist_despite_sink_failure (w : World) (f g : Nat → Bool)
    (file0 : FileState) :
    (Except.map RunState.eraseSheet
        (mainRun ⟨w.loginOutcome, w.users, w.userFeed, w.cat, w.ts, f⟩ file0).2 =
      Except.map RunState.eraseSheet
        (mainRun ⟨w.loginOutcome, w.users, w.userFeed, w.cat, w.ts, g⟩ file0).2) ∧
    (∀ st, (mainRun ⟨w.loginOutcome, w.users, w.userFeed, w.cat, w.ts, f⟩ file0).2 =
        Except.ok st →
      st.fileWrites.length = st.sinkCalls.length) := by
  constructor
  · unfold mainRun
    by_cases hus : w.users.isEmpty
    · simp [hus]
    · simp only [hus, if_neg, Bool.false_eq_true, not_false_eq_true]
      cases hload : load_existing_post_uris file0 with
      | error e => rfl
      | ok ex =>
        simp only [Except.map]
        congr 1
        exact runUsers_eraseSheet
          ⟨w.loginOutcome, w.users, w.userFeed, w.cat, w.ts, f⟩
          ⟨w.loginOutcome, w.users, w.userFeed, w.cat, w.ts, g⟩
          rfl rfl rfl w.users _ _ rfl
  · intro st hst
    unfold mainRun at hst
    by_cases hus : w.users.isEmpty
    · simp [hus] at hst
      rw [← hst]
      rfl
    · simp only [hus, if_neg, Bool.false_eq_true, not_false_eq_true] at hst
      cases hload : load_existing_post_uris file0 with
      | error e => rw [hload] at hst; exact Except.noConfusion hst
      | ok ex =>
        rw [hload] at hst
        have hrun : runUsers ⟨w.loginOutcome, w.users, w.userFeed, w.cat, w.ts, f⟩
            w.users ⟨ex, file0, [], [], [], []⟩ = st := by
          simpa using hst
        rw [← hrun]
        exact runUsers_writes_calls _ w.users _ rfl

/-- Witness for C2 (amended): in the always-failing-sink world the single
sink call is matched by a single file write. -/
theorem C2_persist_despite_sink_failure_witness :
    (⟨[Json.str "at1".toList], save_post_uris [Json.str "at1".toList],
      [], [[demoRow]], [[Json.str "at1".toList]],
      ["alice".toList]⟩ : RunState).fileWrites.length =
    (⟨[Json.str "at1".toList], save_post_uris [Json.str "at1".toList],
      [], [[demoRow]], [[Json.str "at1".toList]],
      ["alice".toList]⟩ : RunState).sinkCalls.length :=
  (C2_persist_despite_sink_failure sinkFailWorld (fun _ => true) (fun _ => false)
    FileState.absent).2 _ (by rfl)

theorem processPost_uri_eq (cat : List Char → Json × Int) (ts h : List Char)
    (p : FeedItem) :
    Option.map (fun r => r.uri) (processPost cat ts h p) =
      if postPasses p then some p.uri else none := by
  unfold processPost postPasses
  by_cases h1 : p.reason.isSome
  · simp [h1]
  · by_cases h2 : p.record.reply.isSome
    · simp [h1, h2]
    · cases htext : p.record.text with
      | none => simp [h1, h2, htext]
      | some t =>
        by_cases h3 : (pyStrip t).isEmpty
        · simp [h1, h2, htext, h3]
        · simp [h1, h2, htext, h3]

theorem userRows_uri_map (cat : List Char → Json × Int) (ts h : List Char)
    (feed : List FeedItem) :
    (userRows cat ts h feed).map (fun r => r.uri) =
      (feed.filter postPasses).map (fun p => p.uri) := by
  induction feed with
  | nil => rfl
  | cons p ps ih =>
    show (List.filterMap (processPost cat ts h) (p :: ps)).map (fun r => r.uri) = _
    rw [List.filterMap_cons]
    have huri := processPost_uri_eq cat ts h p
    cases hpp : processPost cat ts h p with
    | none =>
      rw [hpp] at huri
      by_cases hb : postPasses p
      · rw [if_pos hb] at huri
        exact absurd huri (by simp)
      · rw [List.filter_cons_of_neg (by simpa using hb)]
        exact ih
    | some r =>
      rw [hpp] at huri
      by_cases hb : postPasses p
      · rw [if_pos hb] at huri
        rw [List.filter_cons_of_pos (by simpa using hb), List.map_cons,
          List.map_cons]
        have huri2 : r.uri = p.uri := by simpa using huri
        rw [huri2]
        exact congrArg (List.cons p.uri) ih
      · rw [if_neg hb] at huri
        exact absurd huri (by simp)

theorem rowUris_indep (w1 w2 : World) (hf : w1.userFeed = w2.userFeed)
    (u : List Char) : rowUris w1 u = rowUris w2 u := by
  unfold rowUris fetchRows
  rw [hf]
  cases w2.userFeed u with
  | none => rfl
  | some feed => rw [userRows_uri_map, userRows_uri_map]

theorem load_result_props (f : FileState) (s : List Json)
    (h : load_existing_post_uris f = Except.ok s) :
    s.Nodup ∧ ∀ j ∈ s, jsonHashable j = true := by
  cases f with
  | absent =>
    have hs : s = [] := by simpa [load_existing_post_uris] using h.symm
    subst hs
    exact ⟨List.nodup_nil, by simp⟩
  | unreadable => exact absurd h (by simp [load_existing_post_uris])
  | content parsed =>
    cases parsed with
    | none =>
      have hs : s = [] := by simpa [load_existing_post_uris] using h.symm
      subst hs
      exact ⟨List.nodup_nil, by simp⟩
    | some j =>
      cases j with
      | null => exact absurd h (by simp [load_existing_post_uris])
      | bool b => exact absurd h (by simp [load_existing_post_uris])
      | num n => exact absurd h (by simp [load_existing_post_uris])
      | str s0 => exact absurd h (by simp [load_existing_post_uris])
      | arr xs => exact absurd h (by simp [load_existing_post_uris])
      | obj fields =>
        have h2 : pySetOf ((jsonGet fields "uris".toList).getD (Json.arr [])) =
            Except.ok s := h
        cases hv : (jsonGet fields "uris".toList).getD (Json.arr []) with
        | arr xs =>
          rw [hv] at h2
          by_cases hall : xs.all jsonHashable
          · rw [show pySetOf (Json.arr xs) = Except.ok xs.dedup by
              simp [pySetOf, hall]] at h2
            have hs : s = xs.dedup := (Except.ok.inj h2).symm
            subst hs
            refine ⟨List.nodup_dedup xs, ?_⟩
            intro x hx
            exact List.all_eq_true.mp hall x (List.mem_dedup.mp hx)
          · rw [show pySetOf (Json.arr xs) = Except.error PyErr.typeError by
              simp [pySetOf, hall]] at h2
            exact absurd h2 (by simp)
        | str s0 =>
          rw [hv] at h2
          have hs : s = (s0.map (fun c => Json.str [c])).dedup :=
            (Except.ok.inj h2).symm
          subst hs
          refine ⟨List.nodup_dedup _, ?_⟩
          intro x hx
          rcases List.mem_map.mp (List.mem_dedup.mp hx) with ⟨c, _, hc⟩
          rw [← hc]
          rfl
        | obj fs =>
          rw [hv] at h2
          have hs : s = (fs.map (fun kv => Json.str kv.1)).dedup :=
            (Except.ok.inj h2).symm
          subst hs
          refine ⟨List.nodup_dedup _, ?_⟩
          intro x hx
          rcases List.mem_map.mp (List.mem_dedup.mp hx) with ⟨kv, _, hkv⟩
          rw [← hkv]
          rfl
        | null => rw [hv] at h2; exact absurd h2 (by simp [pySetOf])
        | bool b => rw [hv] at h2; exact absurd h2 (by simp [pySetOf])
        | num n => rw [hv] at h2; exact absurd h2 (by simp [pySetOf])

theorem dedupLoop_set_nodup (R : List Row) :
    ∀ S : List Json, S.Nodup → ((dedupLoop R S).2).Nodup := by
  induction R with
  | nil => intro S h; exact h
  | cons a rs ih =>
    intro S h
    by_cases hmem : Json.str a.uri ∈ S
    · rw [show dedupLoop (a :: rs) S = dedupLoop rs S by simp [dedupLoop, hmem]]
      exact ih S h
    · rw [show dedupLoop (a :: rs) S =
          ((dedupLoop rs (pySetInsert (Json.str a.uri) S)).1.cons a,
           (dedupLoop rs (pySetInsert (Json.str a.uri) S)).2) by
        simp [dedupLoop, hmem]]
      apply ih
      rw [show pySetInsert (Json.str a.uri) S = Json.str a.uri :: S by
        simp [pySetInsert, hmem]]
      exact List.nodup_cons.mpr ⟨hmem, h⟩

theorem dedupLoop_set_hashable (R : List Row) :
    ∀ S : List Json, (∀ j ∈ S, jsonHashable j = true) →
      ∀ j ∈ (dedupLoop R S).2, jsonHashable j = true := by
  induction R with
  | nil => intro S h; exact h
  | cons a rs ih =>
    intro S h
    by_cases hmem : Json.str a.uri ∈ S
    · rw [show dedupLoop (a :: rs) S = dedupLoop rs S by simp [dedupLoop, hmem]]
      exact ih S h
    · rw [show dedupLoop (a :: rs) S =
          ((dedupLoop rs (pySetInsert (Json.str a.uri) S)).1.cons a,
           (dedupLoop rs (pySetInsert (Json.str a.uri) S)).2) by
        simp [dedupLoop, hmem]]
      apply ih
      rw [show pySetInsert (Json.str a.uri) S = Json.str a.uri :: S by
        simp [pySetInsert, hmem]]
      intro j hj
      rcases List.mem_cons.mp hj with hj | hj
      · rw [hj]; rfl
      · exact h j hj

theorem load_save_roundtrip (s : List Json) (hnd : s.Nodup)
    (hh : ∀ j ∈ s, jsonHashable j = true) :
    load_existing_post_uris (save_post_uris s) = Except.ok s := by
  show pySetOf ((jsonGet [("uris".toList, Json.arr s)] "uris".toList).getD
    (Json.arr [])) = Except.ok s
  rw [show jsonGet [("uris".toList, Json.arr s)] "uris".toList =
    some (Json.arr s) from rfl, Option.getD_some]
  show (if s.all jsonHashable then Except.ok s.dedup
    else Except.error PyErr.typeError) = Except.ok s
  rw [if_pos (List.all_eq_true.mpr hh), List.dedup_eq_self.mpr hnd]

theorem processUser_inv (w : World) (st : RunState) (u : List Char)
    (h : stateInv st) : stateInv (processUser w st u) := by
  obtain ⟨hload, hnd, hh⟩ := h
  simp only [processUser]
  by_cases hk : (dedupLoop (fetchRows w u) st.seen).1.isEmpty
  · have hnil : (dedupLoop (fetchRows w u) st.seen).1 = [] :=
      List.isEmpty_iff.mp hk
    have hset : (dedupLoop (fetchRows w u) st.seen).2 = st.seen :=
      dedupLoop_set_of_kept_nil _ _ hnil
    rw [if_pos hk]
    exact ⟨by rw [hset]; exact hload, by rw [hset]; exact hnd,
      by rw [hset]; exact hh⟩
  · rw [if_neg hk]
    have hnd2 : ((dedupLoop (fetchRows w u) st.seen).2).Nodup :=
      dedupLoop_set_nodup _ _ hnd
    have hh2 : ∀ j ∈ (dedupLoop (fetchRows w u) st.seen).2,
        jsonHashable j = true :=
      dedupLoop_set_hashable _ _ hh
    exact ⟨load_save_roundtrip _ hnd2 hh2, hnd2, hh2⟩

theorem runUsers_inv (w : World) :
    ∀ (us : List (List Char)) (st : RunState),
      stateInv st → stateInv (runUsers w us st) := by
  intro us
  induction us with
  | nil => intro st h; exact h
  | cons u rest ih =>
    intro st h
    exact ih _ (processUser_inv w st u h)

theorem processUser_seen_mono (w : World) (st : RunState) (u : List Char)
    (j : Json) (h : j ∈ st.seen) : j ∈ (processUser w st u).seen := by
  simp only [processUser]
  split
  · exact (mem_dedupLoop_set _ _ _).mpr (Or.inl h)
  · exact (mem_dedupLoop_set _ _ _).mpr (Or.inl h)

theorem runUsers_seen_mono (w : World) :
    ∀ (us : List (List Char)) (st : RunState) (j : Json),
      j ∈ st.seen → j ∈ (runUsers w us st).seen := by
  intro us
  induction us with
  | nil => intro st j h; exact h
  | cons u rest ih =>
    intro st j h
    exact ih _ j (processUser_seen_mono w st u j h)

theorem processUser_seen_covers (w : World) (st : RunState) (u : List Char)
    (x : List Char) (hx : x ∈ rowUris w u) :
    Json.str x ∈ (processUser w st u).seen := by
  have hmem : Json.str x ∈ (fetchRows w u).map (fun r => Json.str r.uri) := by
    rcases List.mem_map.mp hx with ⟨r, hr, hru⟩
    exact List.mem_map.mpr ⟨r, hr, by rw [hru]⟩
  simp only [processUser]
  split
  · exact (mem_dedupLoop_set _ _ _).mpr (Or.inr hmem)
  · exact (mem_dedupLoop_set _ _ _).mpr (Or.inr hmem)

theorem runUsers_coverage (w : World) :
    ∀ (us : List (List Char)) (st : RunState) (u : List Char), u ∈ us →
      ∀ x ∈ rowUris w u, Json.str x ∈ (runUsers w us st).seen := by
  intro us
  induction us with
  | nil => intro st u hu; exact absurd hu (List.not_mem_nil u)
  | cons u0 rest ih =>
    intro st u hu x hx
    rcases List.mem_cons.mp hu with h | h
    · subst h
      exact runUsers_seen_mono w rest _ _ (processUser_seen_covers w st u x hx)
    · exact ih _ u h x hx

theorem runUsers_no_new (w : World) :
    ∀ (us : List (List Char)) (st : RunState),
      (∀ u ∈ us, ∀ x ∈ rowUris w u, Json.str x ∈ st.seen) →
      runUsers w us st =
        ⟨st.seen, st.file, st.sheet, st.sinkCalls, st.fileWrites,
         st.fetched ++ us⟩ := by
  intro us
  induction us with
  | nil =>
    intro st _
    show st = _
    cases st
    simp
  | cons u rest ih =>
    intro st h
    have hall : ∀ r ∈ fetchRows w u, Json.str r.uri ∈ st.seen := by
      intro r hr
      exact h u (List.mem_cons_self u rest) r.uri
        (List.mem_map_of_mem (fun r => r.uri) hr)
    have hk : (dedupLoop (fetchRows w u) st.seen).1 = [] :=
      (dedupLoop_kept_nil_iff _ _).mpr hall
    have hs : (dedupLoop (fetchRows w u) st.seen).2 = st.seen :=
      dedupLoop_set_of_kept_nil _ _ hk
    have hproc : processUser w st u =
        ⟨st.seen, st.file, st.sheet, st.sinkCalls, st.fileWrites,
         st.fetched ++ [u]⟩ := by
      simp only [processUser]
      rw [if_pos (List.isEmpty_iff.mpr hk), hs]
    show runUsers w rest (processUser w st u) = _
    rw [hproc]
    rw [ih ⟨st.seen, st.file, st.sheet, st.sinkCalls, st.fileWrites,
        st.fetched ++ [u]⟩
      (fun u' hu' x hx => h u' (List.mem_cons_of_mem u hu') x hx)]
    simp

/-- C7: re-run idempotence — for every pair of runs over the same user list
and unchanged feeds (classifier, timestamps, login and sink behavior may
all differ), if the second run starts from the state file the first run
left behind, it makes zero sink calls, writes the seen-set file zero times,
and leaves the state file untouched. -/
theorem C7_rerun_idempotence (w1 w2 : World) (file0 : FileState)
    (st1 st2 : RunState)
    (husers : w1.users = w2.users) (hfeed : w1.userFeed = w2.userFeed)
    (h1 : (mainRun w1 file0).2 = Except.ok st1)
    (h2 : (mainRun w2 st1.file).2 = Except.ok st2) :
    st2.sinkCalls = [] ∧ st2.fileWrites = [] ∧ st2.file = st1.file := by
  by_cases hempty : w1.users.isEmpty
  · have hempty2 : w2.users.isEmpty = true := by rw [← husers]; exact hempty
    have hst1 : (⟨[], file0, [], [], [], []⟩ : RunState) = st1 := by
      simpa [mainRun, hempty] using h1
    have hst2 : (⟨[], st1.file, [], [], [], []⟩ : RunState) = st2 := by
      simpa [mainRun, hempty2] using h2
    rw [← hst2]
    exact ⟨rfl, rfl, rfl⟩
  · have hempty2 : ¬ w2.users.isEmpty = true := by rw [← husers]; exact hempty
    rw [show mainRun w1 file0 = (match load_existing_post_uris file0 with
        | Except.error e => ((safe_request_run w1.loginOutcome).1, Except.error e)
        | Except.ok existing => ((safe_request_run w1.loginOutcome).1,
            Except.ok (runUsers w1 w1.users ⟨existing, file0, [], [], [], []⟩)))
      by simp [mainRun, hempty]] at h1
    cases hload : load_existing_post_uris file0 with
    | error e =>
      rw [hload] at h1
      exact absurd h1 (by simp)
    | ok ex =>
      rw [hload] at h1
      have hst1 : runUsers w1 w1.users ⟨ex, file0, [], [], [], []⟩ = st1 := by
        simpa using h1
      have hinv0 : stateInv ⟨ex, file0, [], [], [], []⟩ :=
        ⟨hload, (load_result_props _ _ hload).1, (load_result_props _ _ hload).2⟩
      have hinv1 : stateInv st1 := hst1 ▸ runUsers_inv w1 w1.users _ hinv0
      have hcov : ∀ u ∈ w1.users, ∀ x ∈ rowUris w1 u, Json.str x ∈ st1.seen := by
        intro u hu x hx
        exact hst1 ▸ runUsers_coverage w1 w1.users ⟨ex, file0, [], [], [], []⟩
          u hu x hx
      obtain ⟨hload1, _, _⟩ := hinv1
      rw [show mainRun w2 st1.file = (match load_existing_post_uris st1.file with
          | Except.error e => ((safe_request_run w2.loginOutcome).1, Except.error e)
          | Except.ok existing => ((safe_request_run w2.loginOutcome).1,
              Except.ok (runUsers w2 w2.users ⟨existing, st1.file, [], [], [], []⟩)))
        by simp [mainRun, hempty2]] at h2
      rw [hload1] at h2
      have hst2 : runUsers w2 w2.users ⟨st1.seen, st1.file, [], [], [], []⟩ = st2 := by
        simpa using h2
      have hcov2 : ∀ u ∈ w2.users, ∀ x ∈ rowUris w2 u, Json.str x ∈ st1.seen := by
        intro u hu x hx
        refine hcov u (husers ▸ hu) x ?_
        rw [rowUris_indep w1 w2 hfeed u]
        exact hx
      rw [runUsers_no_new w2 w2.users
        ⟨st1.seen, st1.file, [], [], [], []⟩ hcov2] at hst2
      rw [← hst2]
      exact ⟨rfl, rfl, rfl⟩

/-- Witness for C7: running `demoWorld` from an absent state file and then
re-running from the persisted file makes zero sink calls and zero file
writes on the second run. -/
theorem C7_rerun_idempotence_witness :
    (stOf (mainRun demoWorld
      (stOf (mainRun demoWorld FileState.absent).2).file).2).sinkCalls = [] ∧
    (stOf (mainRun demoWorld
      (stOf (mainRun demoWorld FileState.absent).2).file).2).fileWrites = [] ∧
    (stOf (mainRun demoWorld
      (stOf (mainRun demoWorld FileState.absent).2).file).2).file =
      (stOf (mainRun demoWorld FileState.absent).2).file :=
  C7_rerun_idempotence demoWorld demoWorld FileState.absent
    (stOf (mainRun demoWorld FileState.absent).2)
    (stOf (mainRun demoWorld
      (stOf (mainRun demoWorld FileState.absent).2).file).2)
    rfl rfl (by rfl) (by rfl)
